import Mathlib

/-
Verification of the core utilities of `core.js` (src/src/utilities.ts):
the deep-merge algorithm `deepExtend`, the memoizing wrapper `cache`,
the throttling wrapper `throttle`, and the deferred-value constructor
`defer`.  Each definition below is a shallow embedding of the
corresponding JavaScript source; comments cite the source lines.
-/

namespace CoreJS

/-! ## A model of JavaScript values

`deepExtend` walks arbitrary JavaScript values.  We model the three
classes of value it distinguishes:

* `prim s`  — a primitive (number, string, boolean, `null`, `undefined`),
  identified opaquely by its textual form `s`.  `deepExtend` never
  inspects a primitive, so this is sufficient.  `Array.isArray` and
  `instanceof Object` are both `false` on primitives.
* `arr elems props` — an array: an ordered list of elements plus the
  non-index own properties a JavaScript array may additionally carry
  (assigning `a.foo = v` to an array stores `foo` next to the indices).
* `obj fields` — a plain object: own enumerable string-keyed properties
  in insertion order.

The model covers own properties only; inherited prototype properties
(such as `length` seen through `in`) are not modelled — none of the
merge paths exercised here reads them.
-/

inductive JSVal where
  | prim (s : String)
  | arr (elems : List JSVal) (props : List (String × JSVal))
  | obj (fields : List (String × JSVal))

/-- First-match association-list lookup: JavaScript own-property read on
an object's field list (keys are unique in any real object).  Also used,
at other value types, for the memoizer's `Map`. -/
def lookupKey {β : Type} (k : String) : List (String × β) → Option β
  | [] => none
  | (k', v) :: rest => if k' = k then some v else lookupKey k rest

/-- Property write on a field list: overwrite in place if the key is
present (JavaScript keeps the original insertion position), append
otherwise. -/
def setKey {β : Type} (k : String) (v : β) : List (String × β) → List (String × β)
  | [] => [(k, v)]
  | (k', v') :: rest => if k' = k then (k, v) :: rest else (k', v') :: setKey k v rest

/-- Decimal parse of a character list: `some n` iff the list is
non-empty and all digits. -/
def parseNat? (cs : List Char) : Option Nat :=
  if cs ≠ [] ∧ cs.all Char.isDigit then
    some (cs.foldl (fun n c => 10 * n + (c.toNat - 48)) 0)
  else none

/-- A string is an array index iff it is the canonical decimal form of a
natural number (JavaScript: `String(ToUint32(k)) === k`); the round-trip
test rejects forms like `"00"` or `"+1"`. -/
def canonicalIndex (s : String) : Option Nat :=
  match parseNat? s.data with
  | some n => if toString n = s then some n else none
  | none => none

/-- Replace the element at index `i`, padding with `undefined` if the
index is beyond the current length (JavaScript extends the array). -/
def setElem (v : JSVal) : List JSVal → Nat → List JSVal
  | [], 0 => [v]
  | [], n + 1 => JSVal.prim "undefined" :: setElem v [] n
  | _ :: rest, 0 => v :: rest
  | x :: rest, n + 1 => x :: setElem v rest n

/-- Own-property read `o[k]` (as an `Option`): on an object, field
lookup; on an array, element access for canonical indices and otherwise
the extra-property list; on a primitive, nothing. -/
def getProp : JSVal → String → Option JSVal
  | .prim _, _ => none
  | .arr xs props, k =>
    match canonicalIndex k with
    | some i => xs[i]?
    | none => lookupKey k props
  | .obj fs, k => lookupKey k fs

/-- Property read `o[k]` as JavaScript sees it: an absent property reads
as `undefined`. -/
def jsGet (o : JSVal) (k : String) : JSVal :=
  (getProp o k).getD (JSVal.prim "undefined")

/-- The `k in o` test (own properties; see the model comment above). -/
def hasProp (o : JSVal) (k : String) : Bool :=
  (getProp o k).isSome

/-- Property write `o[k] = v`.  Writing to a primitive is a silent
no-op (sloppy-mode JavaScript); never reached by the claims. -/
def setProp : JSVal → String → JSVal → JSVal
  | .prim s, _, _ => .prim s
  | .arr xs props, k, v =>
    match canonicalIndex k with
    | some i => .arr (setElem v xs i) props
    | none => .arr xs (setKey k v props)
  | .obj fs, k, v => .obj (setKey k v fs)

/-- `Array.isArray`. -/
def isArr : JSVal → Bool
  | .arr _ _ => true
  | _ => false

/-- `x instanceof Object`: true for arrays and plain objects, false for
primitives. -/
def isObjInst : JSVal → Bool
  | .prim _ => false
  | _ => true

/-- Elements of an array value (used only on arrays). -/
def elemsOf : JSVal → List JSVal
  | .arr xs _ => xs
  | _ => []

/-- The default array-merge function of `deepExtend` (utilities.ts line
33): `(a, b) => a.concat(b)`.  `concat` builds a fresh array from the
elements of both operands (extra non-index properties do not survive
`concat`). -/
def jsConcat (a b : JSVal) : JSVal :=
  .arr (elemsOf a ++ elemsOf b) []

/-! ## `deepExtend` (utilities.ts lines 31–44)

```
export function deepExtend(obj1: any, obj2: any,
                           arrayMergeFn = ((a, b) => a.concat(b))) {
  for (const i of Object.keys(obj2)) {
    if (i in obj1 && Array.isArray(obj1[i]) && Array.isArray(obj2[i])) {
      obj1[i] = arrayMergeFn(obj1[i], obj2[i]);
    } else if (i in obj1 && obj1[i] instanceof Object &&
      obj2[i] instanceof Object) {
      deepExtend(obj1[i], obj2[i]);
    } else {
      obj1[i] = obj2[i];
    }
  }
}
```

The source mutates `obj1` in place and returns nothing; the embedding
returns the updated value of `obj1`.  `Object.keys(obj2)` yields, for a
plain object, its fields in insertion order and, for an array, the
canonical index keys `"0"`, `"1"`, … followed by the extra properties
(the recursive call is guarded only by `instanceof Object`, so it can
receive an array on either side).  `Object.keys` of a primitive `obj2`
is modelled as empty; a top-level primitive second argument is outside
the documented mapping contract (for a string it would enumerate
character indices) and no recursive call can produce one.

Note that the recursive call `deepExtend(obj1[i], obj2[i])` passes no
third argument, so every nested level uses the default `arrayMergeFn`,
`a.concat(b)` — not the caller's merge function.
-/

mutual

/-- One iteration of the loop body for key `k`: decide which of the
three branches applies (from `i in obj1` and the two shape tests on the
already-stored and incoming values) and write the resulting value back
into `obj1[k]`. -/
def mergeVal (fn : JSVal → JSVal → JSVal) (has : Bool) (v1 v2 : JSVal) : JSVal :=
  if has && isArr v1 && isArr v2 then fn v1 v2
  else if has && isObjInst v1 && isObjInst v2 then deepExtend jsConcat v1 v2
  else v2
termination_by (3 * sizeOf v2 + 1, 0)

/-- The loop body `obj1[k] = …` for a single key/value pair of `obj2`. -/
def extendOne (fn : JSVal → JSVal → JSVal) (obj1 : JSVal) (k : String) (v2 : JSVal) : JSVal :=
  setProp obj1 k (mergeVal fn (hasProp obj1 k) (jsGet obj1 k) v2)
termination_by (3 * sizeOf v2 + 2, 0)

/-- Fold the loop over a list of key/value entries of `obj2`. -/
def extendFields (fn : JSVal → JSVal → JSVal) (obj1 : JSVal) : List (String × JSVal) → JSVal
  | [] => obj1
  | (k, v) :: rest => extendFields fn (extendOne fn obj1 k v) rest
termination_by l => (3 * sizeOf l + 2, 1)

/-- Fold the loop over the index keys `"n"`, `"n+1"`, … of an array's
elements. -/
def extendElems (fn : JSVal → JSVal → JSVal) (obj1 : JSVal) (n : Nat) : List JSVal → JSVal
  | [] => obj1
  | v :: rest => extendElems fn (extendOne fn obj1 (toString n) v) (n + 1) rest
termination_by xs => (3 * sizeOf xs + 2, 1)

/-- `deepExtend obj1 obj2 arrayMergeFn`, returning the updated `obj1`. -/
def deepExtend (fn : JSVal → JSVal → JSVal) (obj1 obj2 : JSVal) : JSVal :=
  match obj2 with
  | .prim _ => obj1
  | .obj fs => extendFields fn obj1 fs
  | .arr xs props => extendFields fn (extendElems fn obj1 0 xs) props
termination_by (3 * sizeOf obj2, 0)

end

/-! ## `cache` (utilities.ts lines 89–96)

```
export function cache<T>(fn: (...args: any[]) => T) {
  let cached = new Map<string, T>();
  return function (...args: any[]) {
    let argString = args.join('--');
    if (!cached.has(argString)) cached.set(argString, fn(...args));
    return cached.get(argString)!;
  };
}
```

`cached` is a local of `cache`'s body, so every call to `cache`
allocates a fresh, empty `Map` captured by that one returned closure.
The map is modelled as an association list in insertion order; the
wrapper's call body is `cacheCall` below.  Arguments are modelled as
`List Int` (each argument stringifies via `toString`, as `join` does
to numbers). -/

/-- The key computation `args.join('--')`. -/
def argString (args : List Int) : String :=
  String.intercalate "--" (args.map toString)

/-- The fresh cache a single call to `cache` creates: `new Map()`. -/
def cacheInit {T : Type} : List (String × T) := []

/-- One call of the memoized wrapper: returns the updated cache, the
result returned to the caller, and whether the underlying `fn` was
invoked.  On a hit the stored value is returned and `fn` is not run; on
a miss `fn` runs once and its result is stored (`Map.set` appends), then
`cached.get(argString)!` returns that freshly stored value. -/
def cacheCall {T : Type} (fn : List Int → T) (cached : List (String × T))
    (args : List Int) : List (String × T) × T × Bool :=
  match lookupKey (argString args) cached with
  | some v => (cached, v, false)
  | none => (cached ++ [(argString args, fn args)], fn args, true)

/-- One call of the memoized wrapper when the underlying function may
throw (`fn : _ → Except ε T`).  The source evaluates `fn(...args)` as
the argument of `cached.set`, so a thrown error propagates before any
entry is written: the cache is returned unchanged. -/
def cacheCallE {T ε : Type} (fn : List Int → Except ε T) (cached : List (String × T))
    (args : List Int) : List (String × T) × Except ε T × Bool :=
  match lookupKey (argString args) cached with
  | some v => (cached, Except.ok v, false)
  | none =>
    match fn args with
    | Except.error e => (cached, Except.error e, true)
    | Except.ok v => (cached ++ [(argString args, v)], Except.ok v, true)

/-- Run a sequence of wrapper calls from a given cache, counting how
often the underlying function is invoked. -/
def cacheRun {T : Type} (fn : List Int → T) (cached : List (String × T)) :
    List (List Int) → List (String × T) × Nat
  | [] => (cached, 0)
  | args :: rest =>
    let step := cacheCall fn cached args
    let next := cacheRun fn step.1 rest
    (next.1, (if step.2.2 then 1 else 0) + next.2)

/-- A world holding two independently created memoized wrappers: each
call to `cache` allocated its own `Map`, so the world is a pair of
caches, one per wrapper. -/
structure TwoWrappers (T : Type) where
  cache1 : List (String × T)
  cache2 : List (String × T)

/-- Creating the two wrappers: `cache(f1)` and `cache(f2)` each run
`let cached = new Map()`. -/
def mkTwoWrappers {T : Type} : TwoWrappers T :=
  ⟨cacheInit, cacheInit⟩

/-- A call through the first wrapper touches only its own cache. -/
def callW1 {T : Type} (f1 : List Int → T) (w : TwoWrappers T) (args : List Int) :
    TwoWrappers T × T × Bool :=
  let step := cacheCall f1 w.cache1 args
  (⟨step.1, w.cache2⟩, step.2)

/-- A call through the second wrapper touches only its own cache. -/
def callW2 {T : Type} (f2 : List Int → T) (w : TwoWrappers T) (args : List Int) :
    TwoWrappers T × T × Bool :=
  let step := cacheCall f2 w.cache2 args
  (⟨w.cache1, step.1⟩, step.2)

/-! ## `throttle` (utilities.ts lines 108–124)

```
export function throttle(fn: (...args: any[]) => void, t = 0) {
  let delay = false;
  let repeat = false;
  return function (...args: any[]) {
    if (delay) {
      repeat = true;
    } else {
      fn(...args);
      delay = true;
      setTimeout(function () {
        if (repeat) fn(...args);
        delay = false;
        repeat = false;
      }, t);
    }
  };
}
```

The wrapper's closure state is the two flags plus, when a timer is
scheduled, the `args` captured by the `setTimeout` callback (the
callback closes over the `args` of the call that started the cooldown;
no later call ever rebinds them).  The event loop is modelled by two
events: `throttleCall` (the caller runs the wrapper synchronously) and
`throttleTimer` (the host fires the scheduled callback).  `setTimeout`
never runs its callback synchronously — even with `t = 0` the callback
is queued as a macrotask — so within a run of synchronous calls no
`throttleTimer` event can occur; `t` is stored but never branched on by
the wrapper logic.

The wrapped `fn` returns `Except ε Unit`: `Except.error e` models a
throw, which aborts the remaining statements of the surrounding body and
propagates to the caller (the event's second component).  `invocations`
logs, in order, the argument of every invocation of `fn`. -/

structure ThrottleState (α : Type) where
  t : Nat
  delay : Bool
  rep : Bool
  pending : Option α
  invocations : List α

/-- `throttle(fn, t)`: both flags start `false`, no timer scheduled. -/
def throttleMk (α : Type) (t : Nat) : ThrottleState α :=
  ⟨t, false, false, none, []⟩

/-- One synchronous call of the throttled wrapper with argument `args`.
While `delay` is set, only `repeat` is raised (the arguments are NOT
recorded anywhere).  Otherwise `fn` runs immediately; if it returns,
`delay` is set and a timer capturing `args` is scheduled; if it throws,
the two following statements never execute and the error propagates. -/
def throttleCall {α ε : Type} (fn : α → Except ε Unit) (s : ThrottleState α)
    (args : α) : ThrottleState α × Option ε :=
  if s.delay then ({ s with rep := true }, none)
  else
    match fn args with
    | Except.error e => ({ s with invocations := s.invocations ++ [args] }, some e)
    | Except.ok _ =>
      ({ s with invocations := s.invocations ++ [args], delay := true,
                pending := some args }, none)

/-- The scheduled `setTimeout` callback fires (only possible when one is
pending).  If `repeat` is set, `fn` is re-invoked with the CAPTURED
arguments; a throw there skips the flag resets.  Otherwise both flags
are cleared. -/
def throttleTimer {α ε : Type} (fn : α → Except ε Unit) (s : ThrottleState α) :
    ThrottleState α × Option ε :=
  match s.pending with
  | none => (s, none)
  | some a =>
    if s.rep then
      match fn a with
      | Except.error e =>
        ({ s with invocations := s.invocations ++ [a], pending := none }, some e)
      | Except.ok _ =>
        ({ s with invocations := s.invocations ++ [a], delay := false,
                  rep := false, pending := none }, none)
    else ({ s with delay := false, rep := false, pending := none }, none)

/-- A wrapped callback that never throws (the common case for the
scroll/resize handlers the source documents). -/
def okFn {α : Type} : α → Except Empty Unit :=
  fun _ => Except.ok ()

/-! ## `defer` (utilities.ts lines 64–79)

```
export function defer() {
  let resolve = () => {};
  let reject = () => {};
  const promise = new Promise((_resolve, _reject) => {
    resolve = _resolve;
    reject = _reject;
  });
  // This prevents exceptions when promises without .catch are rejected:
  promise.catch(function (error) { return error; });
  return {promise, resolve, reject};
}
```

`defer` hands out, unchanged, the `resolve`/`reject` controls of a
freshly constructed host promise; the attached `.catch` only suppresses
unhandled-rejection diagnostics and does not affect settlement.  The
settlement state machine is the ECMAScript one: a promise starts
pending and settles at most once — `resolve`/`reject` on an already
settled promise are no-ops. -/

inductive PromiseState (α ε : Type) where
  | pending
  | fulfilled (v : α)
  | rejected (e : ε)

/-- The promise `defer` returns: freshly constructed, hence pending. -/
def deferPromise (α ε : Type) : PromiseState α ε :=
  PromiseState.pending

/-- The `resolve` control returned by `defer`: fulfil if still pending,
otherwise do nothing. -/
def promiseResolve {α ε : Type} (s : PromiseState α ε) (v : α) : PromiseState α ε :=
  match s with
  | PromiseState.pending => PromiseState.fulfilled v
  | s => s

/-- The `reject` control returned by `defer`: reject if still pending,
otherwise do nothing. -/
def promiseReject {α ε : Type} (s : PromiseState α ε) (e : ε) : PromiseState α ε :=
  match s with
  | PromiseState.pending => PromiseState.rejected e
  | s => s

/-! ## Concrete functions used to instantiate the wrappers -/

/-- An `arrayMergeFn` that keeps only the second array — a representative
custom combinator observably different from the default `concat`. -/
def replaceMerge : JSVal → JSVal → JSVal :=
  fun _ b => b

/-- A constant function returning `1`, wrapped by the first memoizer. -/
def constFn1 : List Int → Int :=
  fun _ => 1

/-- A constant function returning `2`, wrapped by the second memoizer. -/
def constFn2 : List Int → Int :=
  fun _ => 2

/-- A constant function returning `7`. -/
def const7 : List Int → Int :=
  fun _ => 7

/-- A counting-style function: any concrete function works, since the
embedding records invocations itself. -/
def sumFn : List Int → Int :=
  fun l => l.sum

/-- A wrapped function that always throws. -/
def errFn : List Int → Except String Int :=
  fun _ => Except.error "err"

/-- A wrapped callback that throws on argument `0` and returns
otherwise. -/
def boomFn : Nat → Except String Unit :=
  fun n => if n = 0 then Except.error "boom" else Except.ok ()

/-! ## Helper lemmas -/

theorem lookupKey_setKey_self {β : Type} (k : String) (v : β) (l : List (String × β)) :
    lookupKey k (setKey k v l) = some v := by
  induction l with
  | nil => simp [lookupKey, setKey]
  | cons p rest ih =>
    obtain ⟨k', v'⟩ := p
    by_cases h : k' = k
    · simp [lookupKey, setKey, h]
    · simp [lookupKey, setKey, h, ih]

theorem lookupKey_setKey_ne {β : Type} (k k' : String) (v : β) (l : List (String × β))
    (h : k' ≠ k) : lookupKey k (setKey k' v l) = lookupKey k l := by
  induction l with
  | nil => simp [lookupKey, setKey, h]
  | cons p rest ih =>
    obtain ⟨k1, v1⟩ := p
    by_cases h1 : k1 = k'
    · subst h1
      simp [lookupKey, setKey, h]
    · simp only [setKey, if_neg h1]
      by_cases h2 : k1 = k
      · simp [lookupKey, h2]
      · simp [lookupKey, h2, ih]

theorem lookupKey_eq_none_iff {β : Type} (k : String) (l : List (String × β)) :
    lookupKey k l = none ↔ k ∉ l.map Prod.fst := by
  induction l with
  | nil => simp [lookupKey]
  | cons p rest ih =>
    obtain ⟨k', v'⟩ := p
    by_cases h : k' = k
    · simp [lookupKey, h]
    · simp [lookupKey, h, ih, Ne.symm h]

theorem setElem_get_self (v : JSVal) (xs : List JSVal) (i : Nat) :
    (setElem v xs i)[i]? = some v := by
  induction i generalizing xs with
  | zero => cases xs <;> simp [setElem]
  | succ n ih => cases xs <;> simp [setElem, ih]

theorem hasProp_isObjInst (o : JSVal) (k : String) (h : hasProp o k = true) :
    isObjInst o = true := by
  cases o with
  | prim s => simp [hasProp, getProp] at h
  | arr xs props => rfl
  | obj fs => rfl

theorem isArr_isObjInst (v : JSVal) (h : isArr v = true) : isObjInst v = true := by
  cases v <;> simp_all [isArr, isObjInst]

theorem getProp_setProp_self (o : JSVal) (k : String) (v : JSVal)
    (h : isObjInst o = true) : getProp (setProp o k v) k = some v := by
  cases o with
  | prim s => simp [isObjInst] at h
  | arr xs props =>
    simp only [setProp, getProp]
    cases hi : canonicalIndex k with
    | some i => simp [getProp, hi, setElem_get_self]
    | none => simp [getProp, hi, lookupKey_setKey_self]
  | obj fs => simp [setProp, getProp, lookupKey_setKey_self]

theorem extendOne_obj (fn : JSVal → JSVal → JSVal) (fs : List (String × JSVal))
    (k : String) (v2 : JSVal) :
    extendOne fn (JSVal.obj fs) k v2
      = JSVal.obj (setKey k
          (mergeVal fn (hasProp (JSVal.obj fs) k) (jsGet (JSVal.obj fs) k) v2) fs) := by
  simp [extendOne, setProp]

theorem extendFields_frame (fn : JSVal → JSVal → JSVal)
    (l : List (String × JSVal)) :
    ∀ (fs : List (String × JSVal)) (k : String), k ∉ l.map Prod.fst →
      getProp (extendFields fn (JSVal.obj fs) l) k = lookupKey k fs := by
  induction l with
  | nil =>
    intro fs k _
    simp [extendFields, getProp]
  | cons p rest ih =>
    intro fs k h
    obtain ⟨k1, v1⟩ := p
    simp only [List.map_cons, List.mem_cons, not_or] at h
    rw [show extendFields fn (JSVal.obj fs) ((k1, v1) :: rest)
          = extendFields fn (extendOne fn (JSVal.obj fs) k1 v1) rest from by
        simp [extendFields]]
    rw [extendOne_obj]
    rw [ih _ k h.2]
    exact lookupKey_setKey_ne k k1 _ fs (fun hk => h.1 hk.symm)

theorem extendFields_hit (fn : JSVal → JSVal → JSVal)
    (l : List (String × JSVal)) :
    ∀ (fs : List (String × JSVal)) (k : String) (v2 : JSVal),
      lookupKey k l = some v2 → (l.map Prod.fst).Nodup →
      getProp (extendFields fn (JSVal.obj fs) l) k
        = some (mergeVal fn (hasProp (JSVal.obj fs) k) (jsGet (JSVal.obj fs) k) v2) := by
  induction l with
  | nil =>
    intro fs k v2 hl _
    simp [lookupKey] at hl
  | cons p rest ih =>
    intro fs k v2 hl hnd
    obtain ⟨k1, v1⟩ := p
    simp only [List.map_cons, List.nodup_cons] at hnd
    rw [show extendFields fn (JSVal.obj fs) ((k1, v1) :: rest)
          = extendFields fn (extendOne fn (JSVal.obj fs) k1 v1) rest from by
        simp [extendFields]]
    by_cases hk : k1 = k
    · subst hk
      simp [lookupKey] at hl
      subst hl
      rw [extendOne_obj]
      rw [extendFields_frame fn rest _ k1 hnd.1]
      exact lookupKey_setKey_self k1 _ fs
    · simp only [lookupKey, if_neg hk] at hl
      rw [extendOne_obj]
      set X := mergeVal fn (hasProp (JSVal.obj fs) k1) (jsGet (JSVal.obj fs) k1) v1 with hX
      rw [ih _ k v2 hl hnd.2]
      have h1 : hasProp (JSVal.obj (setKey k1 X fs)) k = hasProp (JSVal.obj fs) k := by
        simp only [hasProp, getProp, lookupKey_setKey_ne k k1 X fs hk]
      have h2 : jsGet (JSVal.obj (setKey k1 X fs)) k = jsGet (JSVal.obj fs) k := by
        simp only [jsGet, getProp, lookupKey_setKey_ne k k1 X fs hk]
      rw [h1, h2]

theorem deepExtend_one (fn : JSVal → JSVal → JSVal) (o1 : JSVal) (k : String) (v2 : JSVal) :
    deepExtend fn o1 (JSVal.obj [(k, v2)])
      = setProp o1 k (mergeVal fn (hasProp o1 k) (jsGet o1 k) v2) := by
  simp [deepExtend, extendFields, extendOne]

theorem mergeVal_arrs (fn : JSVal → JSVal → JSVal) (v1 v2 : JSVal)
    (h1 : isArr v1 = true) (h2 : isArr v2 = true) :
    mergeVal fn true v1 v2 = fn v1 v2 := by
  simp [mergeVal, h1, h2]

theorem mergeVal_rec (fn : JSVal → JSVal → JSVal) (v1 v2 : JSVal)
    (ha : (isArr v1 && isArr v2) = false) (ho : (isObjInst v1 && isObjInst v2) = true) :
    mergeVal fn true v1 v2 = deepExtend jsConcat v1 v2 := by
  simp [mergeVal, ha, ho]

theorem mergeVal_overwrite (fn : JSVal → JSVal → JSVal) (v1 v2 : JSVal)
    (ha : (isArr v1 && isArr v2) = false) (ho : (isObjInst v1 && isObjInst v2) = false) :
    mergeVal fn true v1 v2 = v2 := by
  simp [mergeVal, ha, ho]

theorem mergeVal_new (fn : JSVal → JSVal → JSVal) (v1 v2 : JSVal) :
    mergeVal fn false v1 v2 = v2 := by
  simp [mergeVal]

theorem hasProp_obj_cons_self (k : String) (v : JSVal) (rest : List (String × JSVal)) :
    hasProp (JSVal.obj ((k, v) :: rest)) k = true := by
  simp [hasProp, getProp, lookupKey]

theorem jsGet_obj_cons_self (k : String) (v : JSVal) (rest : List (String × JSVal)) :
    jsGet (JSVal.obj ((k, v) :: rest)) k = v := by
  simp [jsGet, getProp, lookupKey]

/-! ## Claim theorems -/

/-- C2, counterexample: merging `{x: [1,2]}` with `{x: {a: 3}}` — the key
exists in both trees, the values are a sequence and a mapping (a type
mismatch) — does NOT replace `target.x` by the source's `{a: 3}`: both
values are `instanceof Object`, so the code recurses, producing the
original array with an extra property `a`. -/
theorem deepExtend_mismatch_overwrite_counterexample :
    getProp (deepExtend jsConcat
        (JSVal.obj [("x", JSVal.arr [JSVal.prim "1", JSVal.prim "2"] [])])
        (JSVal.obj [("x", JSVal.obj [("a", JSVal.prim "3")])])) "x"
      = some (JSVal.arr [JSVal.prim "1", JSVal.prim "2"] [("a", JSVal.prim "3")])
    ∧ getProp (deepExtend jsConcat
        (JSVal.obj [("x", JSVal.arr [JSVal.prim "1", JSVal.prim "2"] [])])
        (JSVal.obj [("x", JSVal.obj [("a", JSVal.prim "3")])])) "x"
      ≠ some (JSVal.obj [("a", JSVal.prim "3")]) := by
  have e2 : deepExtend jsConcat (JSVal.arr [JSVal.prim "1", JSVal.prim "2"] [])
      (JSVal.obj [("a", JSVal.prim "3")])
      = JSVal.arr [JSVal.prim "1", JSVal.prim "2"] [("a", JSVal.prim "3")] := by
    rw [deepExtend_one]
    show setProp (JSVal.arr [JSVal.prim "1", JSVal.prim "2"] []) "a"
        (mergeVal jsConcat false
          (jsGet (JSVal.arr [JSVal.prim "1", JSVal.prim "2"] []) "a") (JSVal.prim "3")) = _
    rw [mergeVal_new]
    rfl
  have e1 : deepExtend jsConcat
      (JSVal.obj [("x", JSVal.arr [JSVal.prim "1", JSVal.prim "2"] [])])
      (JSVal.obj [("x", JSVal.obj [("a", JSVal.prim "3")])])
      = JSVal.obj [("x", JSVal.arr [JSVal.prim "1", JSVal.prim "2"] [("a", JSVal.prim "3")])] := by
    rw [deepExtend_one, hasProp_obj_cons_self, jsGet_obj_cons_self,
        mergeVal_rec jsConcat (JSVal.arr [JSVal.prim "1", JSVal.prim "2"] [])
          (JSVal.obj [("a", JSVal.prim "3")]) rfl rfl, e2]
    rfl
  constructor
  · rw [e1]
    rfl
  · rw [e1]
    simp [getProp, lookupKey]

/-- C2, amended: when the key exists in the target and at least one of
the two values is a primitive (not `instanceof Object`), the target's
value is overwritten by the source's value.  When both values are
objects in the `instanceof` sense — including the sequence-vs-mapping
mismatch — the code recurses instead of overwriting. -/
theorem deepExtend_overwrite_on_nonobject_mismatch
    (fn : JSVal → JSVal → JSVal) (o1 : JSVal) (k : String) (v2 : JSVal)
    (hhas : hasProp o1 k = true)
    (hmis : (isObjInst (jsGet o1 k) && isObjInst v2) = false) :
    deepExtend fn o1 (JSVal.obj [(k, v2)]) = setProp o1 k v2
    ∧ getProp (deepExtend fn o1 (JSVal.obj [(k, v2)])) k = some v2 := by
  have harr : (isArr (jsGet o1 k) && isArr v2) = false := by
    cases h1 : isArr (jsGet o1 k) with
    | false => simp
    | true =>
      cases h2 : isArr v2 with
      | false => simp
      | true =>
        exfalso
        have e1 := isArr_isObjInst _ h1
        have e2 := isArr_isObjInst _ h2
        rw [e1, e2] at hmis
        simp at hmis
  have hmv : mergeVal fn true (jsGet o1 k) v2 = v2 :=
    mergeVal_overwrite fn (jsGet o1 k) v2 harr hmis
  have hstep : deepExtend fn o1 (JSVal.obj [(k, v2)]) = setProp o1 k v2 := by
    rw [deepExtend_one, hhas, hmv]
  exact ⟨hstep, by
    rw [hstep]
    exact getProp_setProp_self o1 k v2 (hasProp_isObjInst o1 k hhas)⟩

/-- C2, witness for the amended theorem: target `{x: "1"}`, source
`{x: {a: "2"}}` — primitive vs mapping — is overwritten. -/
theorem deepExtend_overwrite_on_nonobject_mismatch_witness :
    hasProp (JSVal.obj [("x", JSVal.prim "1")]) "x" = true
    ∧ (isObjInst (jsGet (JSVal.obj [("x", JSVal.prim "1")]) "x")
        && isObjInst (JSVal.obj [("a", JSVal.prim "2")])) = false
    ∧ getProp (deepExtend jsConcat (JSVal.obj [("x", JSVal.prim "1")])
        (JSVal.obj [("x", JSVal.obj [("a", JSVal.prim "2")])])) "x"
      = some (JSVal.obj [("a", JSVal.prim "2")]) :=
  ⟨rfl, rfl,
    (deepExtend_overwrite_on_nonobject_mismatch jsConcat
      (JSVal.obj [("x", JSVal.prim "1")]) "x"
      (JSVal.obj [("a", JSVal.prim "2")]) rfl rfl).2⟩

/-- C3, counterexample: with the supplied combinator "replace by the
second array", merging `{x: {y: [1]}}` with `{x: {y: [2]}}` leaves the
nested `y` as `[1, 2]` — the default concatenation — not `[2]`, which
the combinator would have produced; the supplied combinator is not
applied to nested sequence pairs. -/
theorem deepExtend_nested_combinator_counterexample :
    getProp (jsGet (deepExtend replaceMerge
        (JSVal.obj [("x", JSVal.obj [("y", JSVal.arr [JSVal.prim "1"] [])])])
        (JSVal.obj [("x", JSVal.obj [("y", JSVal.arr [JSVal.prim "2"] [])])])) "x") "y"
      = some (JSVal.arr [JSVal.prim "1", JSVal.prim "2"] [])
    ∧ getProp (jsGet (deepExtend replaceMerge
        (JSVal.obj [("x", JSVal.obj [("y", JSVal.arr [JSVal.prim "1"] [])])])
        (JSVal.obj [("x", JSVal.obj [("y", JSVal.arr [JSVal.prim "2"] [])])])) "x") "y"
      ≠ some (replaceMerge (JSVal.arr [JSVal.prim "1"] []) (JSVal.arr [JSVal.prim "2"] [])) := by
  have e2 : deepExtend jsConcat (JSVal.obj [("y", JSVal.arr [JSVal.prim "1"] [])])
      (JSVal.obj [("y", JSVal.arr [JSVal.prim "2"] [])])
      = JSVal.obj [("y", JSVal.arr [JSVal.prim "1", JSVal.prim "2"] [])] := by
    rw [deepExtend_one, hasProp_obj_cons_self, jsGet_obj_cons_self,
        mergeVal_arrs jsConcat (JSVal.arr [JSVal.prim "1"] [])
          (JSVal.arr [JSVal.prim "2"] []) rfl rfl]
    rfl
  have e1 : deepExtend replaceMerge
      (JSVal.obj [("x", JSVal.obj [("y", JSVal.arr [JSVal.prim "1"] [])])])
      (JSVal.obj [("x", JSVal.obj [("y", JSVal.arr [JSVal.prim "2"] [])])])
      = JSVal.obj [("x", JSVal.obj [("y", JSVal.arr [JSVal.prim "1", JSVal.prim "2"] [])])] := by
    rw [deepExtend_one, hasProp_obj_cons_self, jsGet_obj_cons_self,
        mergeVal_rec replaceMerge (JSVal.obj [("y", JSVal.arr [JSVal.prim "1"] [])])
          (JSVal.obj [("y", JSVal.arr [JSVal.prim "2"] [])]) rfl rfl, e2]
    rfl
  constructor
  · rw [e1]
    rfl
  · rw [e1]
    simp [getProp, jsGet, lookupKey, replaceMerge]

/-- C3, amended: the supplied array combinator is applied to overlapping
sequence pairs at the top level only; when both values under a key are
nested mappings, the recursive merge is performed with the DEFAULT
combinator (concatenation), since the recursive call passes no
`arrayMergeFn`. -/
theorem deepExtend_combinator_top_level_only
    (fn : JSVal → JSVal → JSVal) (k : String) (xs ys : List JSVal)
    (p q fs1 fs2 : List (String × JSVal)) :
    getProp (deepExtend fn (JSVal.obj [(k, JSVal.arr xs p)])
        (JSVal.obj [(k, JSVal.arr ys q)])) k
      = some (fn (JSVal.arr xs p) (JSVal.arr ys q))
    ∧ getProp (deepExtend fn (JSVal.obj [(k, JSVal.obj fs1)])
        (JSVal.obj [(k, JSVal.obj fs2)])) k
      = some (deepExtend jsConcat (JSVal.obj fs1) (JSVal.obj fs2)) := by
  constructor
  · rw [deepExtend_one, hasProp_obj_cons_self, jsGet_obj_cons_self,
        mergeVal_arrs fn (JSVal.arr xs p) (JSVal.arr ys q) rfl rfl]
    exact getProp_setProp_self _ k _ rfl
  · rw [deepExtend_one, hasProp_obj_cons_self, jsGet_obj_cons_self,
        mergeVal_rec fn (JSVal.obj fs1) (JSVal.obj fs2) rfl rfl]
    exact getProp_setProp_self _ k _ rfl

/-- C6: after `deepExtend(a, b)`, every top-level key of `b` is present
in `a`, bound to the per-key merged value computed from `a`'s original
value and `b`'s value; every top-level key of `a` not occurring in `b`
still holds its original value. -/
theorem deepExtend_key_coverage_and_frame (fn : JSVal → JSVal → JSVal)
    (fs1 fs2 : List (String × JSVal)) (hnd : (fs2.map Prod.fst).Nodup) (k : String) :
    (∀ v2, lookupKey k fs2 = some v2 →
        getProp (deepExtend fn (JSVal.obj fs1) (JSVal.obj fs2)) k
          = some (mergeVal fn (hasProp (JSVal.obj fs1) k) (jsGet (JSVal.obj fs1) k) v2))
    ∧ (lookupKey k fs2 = none →
        getProp (deepExtend fn (JSVal.obj fs1) (JSVal.obj fs2)) k = lookupKey k fs1) := by
  have hde : deepExtend fn (JSVal.obj fs1) (JSVal.obj fs2)
      = extendFields fn (JSVal.obj fs1) fs2 := by
    simp [deepExtend]
  constructor
  · intro v2 hl
    rw [hde]
    exact extendFields_hit fn fs2 fs1 k v2 hl hnd
  · intro hl
    rw [hde]
    exact extendFields_frame fn fs2 fs1 k ((lookupKey_eq_none_iff k fs2).1 hl)

/-- C6, witness: merging `{a: "1", c: "2"}` with `{a: "3", b: "4"}`:
key `a` of the source lands in the target with its merged (here:
overwritten) value, and key `c`, absent from the source, is unchanged. -/
theorem deepExtend_key_coverage_and_frame_witness :
    (([("a", JSVal.prim "3"), ("b", JSVal.prim "4")].map Prod.fst).Nodup
    ∧ lookupKey "a" [("a", JSVal.prim "3"), ("b", JSVal.prim "4")] = some (JSVal.prim "3"))
    ∧ getProp (deepExtend jsConcat
        (JSVal.obj [("a", JSVal.prim "1"), ("c", JSVal.prim "2")])
        (JSVal.obj [("a", JSVal.prim "3"), ("b", JSVal.prim "4")])) "a"
      = some (mergeVal jsConcat
          (hasProp (JSVal.obj [("a", JSVal.prim "1"), ("c", JSVal.prim "2")]) "a")
          (jsGet (JSVal.obj [("a", JSVal.prim "1"), ("c", JSVal.prim "2")]) "a")
          (JSVal.prim "3"))
    ∧ getProp (deepExtend jsConcat
        (JSVal.obj [("a", JSVal.prim "1"), ("c", JSVal.prim "2")])
        (JSVal.obj [("a", JSVal.prim "3"), ("b", JSVal.prim "4")])) "c"
      = lookupKey "c" [("a", JSVal.prim "1"), ("c", JSVal.prim "2")] :=
  ⟨⟨by simp, rfl⟩,
    (deepExtend_key_coverage_and_frame jsConcat
      [("a", JSVal.prim "1"), ("c", JSVal.prim "2")]
      [("a", JSVal.prim "3"), ("b", JSVal.prim "4")] (by simp) "a").1
      (JSVal.prim "3") rfl,
    (deepExtend_key_coverage_and_frame jsConcat
      [("a", JSVal.prim "1"), ("c", JSVal.prim "2")]
      [("a", JSVal.prim "3"), ("b", JSVal.prim "4")] (by simp) "c").2 rfl⟩

/-- C1, counterexample: with `windowMs = 100`, three synchronous calls
with arguments 1, 2, 3 followed by the timer expiry produce the
invocation log `[1, 1]` — the trailing invocation replays the FIRST
call's arguments captured by the timer closure, not the latest `3` the
claim predicts. -/
theorem throttle_trailing_latest_args_counterexample :
    (throttleTimer okFn
      (throttleCall okFn
        (throttleCall okFn
          (throttleCall okFn (throttleMk Nat 100) 1).1 2).1 3).1).1.invocations = [1, 1]
    ∧ (throttleTimer okFn
      (throttleCall okFn
        (throttleCall okFn
          (throttleCall okFn (throttleMk Nat 100) 1).1 2).1 3).1).1.invocations ≠ [1, 3] := by
  exact ⟨rfl, by decide⟩

/-- C1, amended: with `windowMs = 100`, three synchronous calls cause
exactly one immediate invocation with the first call's arguments, and
the timer expiry causes exactly one trailing invocation — but the
trailing invocation carries the FIRST call's arguments (captured when
the cooldown started), since calls during cooldown only set the
`repeat` flag and record no arguments. -/
theorem throttle_trailing_uses_first_args {α : Type} (a1 a2 a3 : α) :
    (throttleCall okFn (throttleMk α 100) a1).1.invocations = [a1]
    ∧ (throttleCall okFn
        (throttleCall okFn (throttleMk α 100) a1).1 a2).1.invocations = [a1]
    ∧ (throttleCall okFn
        (throttleCall okFn
          (throttleCall okFn (throttleMk α 100) a1).1 a2).1 a3).1.invocations = [a1]
    ∧ (throttleTimer okFn
        (throttleCall okFn
          (throttleCall okFn
            (throttleCall okFn (throttleMk α 100) a1).1 a2).1 a3).1).1.invocations
      = [a1, a1] := by
  exact ⟨rfl, rfl, rfl, rfl⟩

/-- C4, counterexample: with `windowMs = 0` the wrapper still calls the
host `setTimeout`, whose callback never runs within the current
synchronous execution, so of two synchronous back-to-back calls only the
first invokes the function — the second is coalesced, contradicting
"every call invokes immediately". -/
theorem throttle_zero_window_counterexample :
    (throttleCall okFn
      (throttleCall okFn (throttleMk Nat 0) 1).1 2).1.invocations = [1]
    ∧ (throttleCall okFn
      (throttleCall okFn (throttleMk Nat 0) 1).1 2).1.invocations ≠ [1, 2] := by
  exact ⟨rfl, by decide⟩

/-- C4, amended: `windowMs = 0` does not degenerate to always-READY:
the wrapper's logic never branches on the window length.  Of two
synchronous calls the first invokes immediately, the second only raises
the `repeat` flag, and one trailing invocation (with the first call's
arguments) runs when the zero-delay timer callback fires on the next
event-loop turn. -/
theorem throttle_zero_window_coalesces {α : Type} (a1 a2 : α) :
    (throttleCall okFn (throttleMk α 0) a1).1.invocations = [a1]
    ∧ (throttleCall okFn
        (throttleCall okFn (throttleMk α 0) a1).1 a2).1.invocations = [a1]
    ∧ (throttleCall okFn
        (throttleCall okFn (throttleMk α 0) a1).1 a2).1.rep = true
    ∧ (throttleTimer okFn
        (throttleCall okFn
          (throttleCall okFn (throttleMk α 0) a1).1 a2).1).1.invocations = [a1, a1] := by
  exact ⟨rfl, rfl, rfl, rfl⟩

/-- C10: if the wrapped function throws during the immediate
(READY-state) invocation, the error propagates to the caller, the
`delay` flag is never set and no timer is scheduled — so the very next
call invokes the wrapped function immediately again. -/
theorem throttle_throw_no_cooldown {α ε : Type} (fn : α → Except ε Unit)
    (s : ThrottleState α) (a : α) (e : ε)
    (hd : s.delay = false) (hf : fn a = Except.error e) :
    throttleCall fn s a = ({ s with invocations := s.invocations ++ [a] }, some e)
    ∧ (throttleCall fn s a).1.delay = false
    ∧ (throttleCall fn s a).1.pending = s.pending
    ∧ ∀ a2 : α, (throttleCall fn (throttleCall fn s a).1 a2).1.invocations
        = s.invocations ++ [a] ++ [a2] := by
  have h1 : throttleCall fn s a = ({ s with invocations := s.invocations ++ [a] }, some e) := by
    simp [throttleCall, hd, hf]
  refine ⟨h1, ?_, ?_, ?_⟩
  · rw [h1]
    exact hd
  · rw [h1]
  · intro a2
    rw [h1]
    cases hfa : fn a2 with
    | error e2 => simp [throttleCall, hd, hfa]
    | ok u => simp [throttleCall, hd, hfa]

/-- C10, witness: `boomFn` throws on argument 0; the wrapper stays out
of cooldown and the next call (argument 1) is invoked immediately. -/
theorem throttle_throw_no_cooldown_witness :
    (throttleMk Nat 100).delay = false
    ∧ boomFn 0 = Except.error "boom"
    ∧ (throttleCall boomFn (throttleMk Nat 100) 0).1.delay = false
    ∧ (throttleCall boomFn (throttleMk Nat 100) 0).1.pending = none
    ∧ (throttleCall boomFn
        (throttleCall boomFn (throttleMk Nat 100) 0).1 1).1.invocations = [0, 1] :=
  ⟨rfl, rfl,
    (throttle_throw_no_cooldown boomFn (throttleMk Nat 100) 0 "boom" rfl rfl).2.1,
    (throttle_throw_no_cooldown boomFn (throttleMk Nat 100) 0 "boom" rfl rfl).2.2.1,
    (throttle_throw_no_cooldown boomFn (throttleMk Nat 100) 0 "boom" rfl rfl).2.2.2 1⟩

/-- C5, counterexample: two independently created memoized wrappers
(over `constFn1` and `constFn2`) and the same argument list `[5]`: the
first wrapper computes and caches 1, yet the second wrapper still
invokes its own function and returns 2 — the entry cached through one
wrapper is not observable through the other, because each call to
`cache` allocates its own `Map`. -/
theorem cache_sharing_counterexample :
    (callW1 constFn1 mkTwoWrappers [5]).2 = (1, true)
    ∧ (callW1 constFn1 mkTwoWrappers [5]).1.cache1 = [(argString [5], 1)]
    ∧ (callW1 constFn1 mkTwoWrappers [5]).1.cache2 = []
    ∧ (callW2 constFn2 (callW1 constFn1 mkTwoWrappers [5]).1 [5]).2 = (2, true) := by
  exact ⟨rfl, rfl, rfl, rfl⟩

/-- C5, amended: the memoizer's cache is closure state owned by each
wrapper, not module-level global state: for every pair of independently
created wrappers, a call through the first leaves the second wrapper's
cache empty, and a subsequent call through the second wrapper with any
arguments invokes the second underlying function. -/
theorem cache_per_wrapper_isolation {T : Type} (f1 f2 : List Int → T)
    (args args2 : List Int) :
    (callW1 f1 mkTwoWrappers args).1.cache2 = cacheInit
    ∧ (callW2 f2 (callW1 f1 mkTwoWrappers args).1 args2).2.2 = true
    ∧ (callW2 f2 (callW1 f1 mkTwoWrappers args).1 args2).2.1 = f2 args2 := by
  exact ⟨rfl, rfl, rfl⟩

/-- C7: a cached key returns the stored result without invoking the
function; an uncached key invokes it once and stores the result under
the key `argString args` (the arguments joined by `"--"` after
stringification); and the concrete call sequence `(1,2)`, `(1,2)`,
`(1,3)` invokes the underlying function exactly twice. -/
theorem cache_hit_miss_and_counting :
    (∀ (T : Type) (fn : List Int → T) (c : List (String × T)) (args : List Int) (v : T),
        lookupKey (argString args) c = some v → cacheCall fn c args = (c, v, false))
    ∧ (∀ (T : Type) (fn : List Int → T) (c : List (String × T)) (args : List Int),
        lookupKey (argString args) c = none →
          cacheCall fn c args = (c ++ [(argString args, fn args)], fn args, true))
    ∧ (∀ fn : List Int → Int, (cacheRun fn cacheInit [[1, 2], [1, 2], [1, 3]]).2 = 2) := by
  refine ⟨?_, ?_, ?_⟩
  · intro T fn c args v h
    simp [cacheCall, h]
  · intro T fn c args h
    simp [cacheCall, h]
  · intro fn
    rfl

/-- C7, witness: a concrete cache hit, and the concrete three-call run
with two invocations. -/
theorem cache_hit_miss_and_counting_witness :
    lookupKey (argString [1, 2]) [(argString [1, 2], (9 : Int))] = some 9
    ∧ cacheCall const7 [(argString [1, 2], (9 : Int))] [1, 2]
      = ([(argString [1, 2], (9 : Int))], 9, false)
    ∧ (cacheRun sumFn cacheInit [[1, 2], [1, 2], [1, 3]]).2 = 2 :=
  ⟨rfl,
    cache_hit_miss_and_counting.1 Int const7 [(argString [1, 2], (9 : Int))] [1, 2] 9 rfl,
    cache_hit_miss_and_counting.2.2 sumFn⟩

/-- C8: if the underlying function throws on an uncached key, the error
propagates (the function WAS invoked), the cache is unchanged — no
entry is created — and a repeat call with the same key invokes the
underlying function again. -/
theorem cache_throw_not_cached {T ε : Type} (fn : List Int → Except ε T)
    (c : List (String × T)) (args : List Int) (e : ε)
    (hmiss : lookupKey (argString args) c = none)
    (hthrow : fn args = Except.error e) :
    cacheCallE fn c args = (c, Except.error e, true)
    ∧ (cacheCallE fn (cacheCallE fn c args).1 args).2.2 = true := by
  have h1 : cacheCallE fn c args = (c, Except.error e, true) := by
    simp [cacheCallE, hmiss, hthrow]
  refine ⟨h1, ?_⟩
  rw [h1]
  simp [cacheCallE, hmiss, hthrow]

/-- C8, witness: the always-throwing `errFn` on an empty cache. -/
theorem cache_throw_not_cached_witness :
    lookupKey (argString [1]) (cacheInit : List (String × Int)) = none
    ∧ errFn [1] = Except.error "err"
    ∧ cacheCallE errFn (cacheInit : List (String × Int)) [1]
      = (cacheInit, Except.error "err", true) :=
  ⟨rfl, rfl, (cache_throw_not_cached errFn cacheInit [1] "err" rfl rfl).1⟩

/-- C9: `resolve(5)` then `resolve(6)` fulfils the deferred promise
with 5; every `resolve` or `reject` on an already settled promise is a
no-op — the container leaves the pending state exactly once. -/
theorem defer_resolve_once :
    promiseResolve (promiseResolve (deferPromise Int String) 5) 6 = PromiseState.fulfilled 5
    ∧ (∀ (α ε : Type) (a v : α) (e : ε),
        promiseResolve (PromiseState.fulfilled a : PromiseState α ε) v
            = PromiseState.fulfilled a
        ∧ promiseReject (PromiseState.fulfilled a : PromiseState α ε) e
            = PromiseState.fulfilled a)
    ∧ (∀ (α ε : Type) (v : α) (e0 e : ε),
        promiseResolve (PromiseState.rejected e0 : PromiseState α ε) v
            = PromiseState.rejected e0
        ∧ promiseReject (PromiseState.rejected e0 : PromiseState α ε) e
            = PromiseState.rejected e0) := by
  exact ⟨rfl, fun α ε a v e => ⟨rfl, rfl⟩, fun α ε v e0 e => ⟨rfl, rfl⟩⟩

end CoreJS
